import Mathlib

/-!
Verification of the ACPI discovery-and-decode pipeline of AsyncOS
(`src/acpi/{mod,tables,table,rsdp,rsdt,madt}.rs`).

Physical memory is modelled as a total map from byte addresses to byte
values; every structure of the source is a read-only view over that map,
exactly as the Rust code interprets `*const u8` data in place.  Pointer
arithmetic (`offset`) becomes `Nat` addition; the one place the source does
`usize` arithmetic that can wrap (`header.length as usize - size_of::<Self>()`
in `raw_tables`) is modelled with explicit wrapping subtraction mod `2^64`,
the release-profile semantics on the 64-bit target.
-/

namespace AsyncOS

/-- Physical memory: a total map from byte addresses to stored values.
Reads truncate to a byte, as a `*const u8` dereference yields a `u8`. -/
def Mem : Type := Nat → Nat

/-- Dereference a `*const u8` at address `a`. -/
def read1 (m : Mem) (a : Nat) : Nat := m a % 256

/-- Read a little-endian `u16` at address `a`. -/
def read16 (m : Mem) (a : Nat) : Nat := read1 m a + 256 * read1 m (a + 1)

/-- Read a little-endian `u32` at address `a`. -/
def read32 (m : Mem) (a : Nat) : Nat :=
  read1 m a + 256 * read1 m (a + 1) + 65536 * read1 m (a + 2) + 16777216 * read1 m (a + 3)

/-- Read a little-endian `u64` at address `a`. -/
def read64 (m : Mem) (a : Nat) : Nat := read32 m a + 4294967296 * read32 m (a + 4)

/-- The modulus of `usize` arithmetic on the 64-bit target. -/
def USIZE_MOD : Nat := 18446744073709551616

/-- Wrapping `usize` subtraction `a - b`, the release-profile semantics of the
subtraction in `RSDT::raw_tables` / `XSDT::raw_tables`, for `a, b < 2^64`. -/
def usize_sub (a b : Nat) : Nat := (USIZE_MOD + a - b) % USIZE_MOD

/-- Bytes of `RSDP_SIGNATURE = b"RSD PTR "` (`tables.rs` / `rsdp.rs`). -/
def RSDP_SIGNATURE : List Nat := [82, 83, 68, 32, 80, 84, 82, 32]

/-- Address of the EBDA segment pointer, `EXTENDED_BIOS_AREA_POINTER_LOC`. -/
def EXTENDED_BIOS_AREA_POINTER_LOC : Nat := 1038

/-- Constant `EXTENDED_BIOS_AREA_MAX_SIZE = 1 << 10`. -/
def EXTENDED_BIOS_AREA_MAX_SIZE : Nat := 1024

/-- Constant `RSDP_LOCATION_START = 0xE0000`. -/
def RSDP_LOCATION_START : Nat := 917504

/-- Constant `RSDP_LOCATION_END = 0x100000`. -/
def RSDP_LOCATION_END : Nat := 1048576

/-- Constant `RSDP_VERSION_1 = 0`. -/
def RSDP_VERSION_1 : Nat := 0

/-- Constant `RSDP_VERSION_2 = 2`. -/
def RSDP_VERSION_2 : Nat := 2

/-- Byte size of the packed `SDTHeader` struct (`mem::size_of::<SDTHeader>()`). -/
def SDT_HEADER_SIZE : Nat := 36

/-- The `length` field of an `SDTHeader` at base address `base`: a `u32` at
offset 4 (after the 4-byte `signature`). -/
def SDTHeader.length (m : Mem) (base : Nat) : Nat := read32 m (base + 4)

/-- The `signature` field of an `SDTHeader` at base address `base`: the first
4 bytes of the header. -/
def SDTHeader.signature (m : Mem) (base : Nat) : List Nat :=
  [read1 m base, read1 m (base + 1), read1 m (base + 2), read1 m (base + 3)]

/-- Embedding of `SDTHeader::verify_checksum`: sum `self.length` bytes starting
at the header's own base with `Wrapping<u8>` addition and compare with 0. -/
def verify_checksum (m : Mem) (base : Nat) : Bool :=
  (List.range (SDTHeader.length m base)).foldl
    (fun sum o => (sum + read1 m (base + o)) % 256) 0 == 0

/-- Embedding of `extended_bios_data_area_start`: the `u16` segment pointer at
`EXTENDED_BIOS_AREA_POINTER_LOC`, shifted left by 4. -/
def extended_bios_data_area_start (m : Mem) : Nat :=
  read16 m EXTENDED_BIOS_AREA_POINTER_LOC * 16

/-- The addresses `(s .. e).step_by(16)` visits, in order. -/
def step_by_16 (s e : Nat) : List Nat :=
  (List.range ((e - s + 15) / 16)).map (fun k => s + 16 * k)

/-- The legacy BIOS window addresses `(RSDP_LOCATION_START .. RSDP_LOCATION_END).step_by(16)`. -/
def legacy_addrs : List Nat := step_by_16 RSDP_LOCATION_START RSDP_LOCATION_END

/-- The EBDA window addresses `(ebda_start .. ebda_start + EXTENDED_BIOS_AREA_MAX_SIZE).step_by(16)`. -/
def ebda_addrs (m : Mem) : List Nat :=
  step_by_16 (extended_bios_data_area_start m)
    (extended_bios_data_area_start m + EXTENDED_BIOS_AREA_MAX_SIZE)

/-- The full scan order of `find_rsdp`: the legacy window chained before the
EBDA window. -/
def scan_addrs (m : Mem) : List Nat := legacy_addrs ++ ebda_addrs m

/-- The signature test of `find_rsdp`: the 8-byte slice at `a` equals
`RSDP_SIGNATURE`. -/
def rsdp_sig_at (m : Mem) (a : Nat) : Bool :=
  (List.range RSDP_SIGNATURE.length).map (fun i => read1 m (a + i)) == RSDP_SIGNATURE

/-- Embedding of `find_rsdp`: the first address of the chained scan whose
8 bytes match the signature. -/
def find_rsdp (m : Mem) : Option Nat := (scan_addrs m).find? (rsdp_sig_at m)

/-- The `revision` field of an `RSDP` at `p`: byte offset 15
(after signature 8, checksum 1, oem_id 6). -/
def RSDP.revision (m : Mem) (p : Nat) : Nat := read1 m (p + 15)

/-- The `address` field of an `RSDP` at `p`: a `u32` at byte offset 16. -/
def RSDP.address (m : Mem) (p : Nat) : Nat := read32 m (p + 16)

/-- The `address` field of an `XSDP` at `p`: a `u64` at byte offset 24
(after the 20 RSDP bytes and the 4-byte `_rsdt_address`). -/
def XSDP.address (m : Mem) (p : Nat) : Nat := read64 m (p + 24)

/-- The handle type `ACPI`: a version-tagged root-table reference. -/
inductive ACPI where
  | Version1 (rsdt : Nat)
  | Version2 (xsdt : Nat)
deriving DecidableEq

/-- The revision dispatch of `ACPI::find_in_memory`: match the located
pointer's `revision` byte against the constants `RSDP_VERSION_1` and
`RSDP_VERSION_2`, any other value giving `None`. -/
def resolve_rsdp (m : Mem) (p : Nat) : Option ACPI :=
  if RSDP.revision m p = RSDP_VERSION_1 then some (ACPI.Version1 (RSDP.address m p))
  else if RSDP.revision m p = RSDP_VERSION_2 then some (ACPI.Version2 (XSDP.address m p))
  else none

/-- Embedding of `ACPI::find_in_memory`: locate the RSDP, then resolve it. -/
def find_in_memory (m : Mem) : Option ACPI := (find_rsdp m).bind (resolve_rsdp m)

/-- The iterator state of `RawTablesIter`. -/
structure RawTablesIter where
  location : Nat
  remaining : Nat
  is_64_bit : Bool
deriving DecidableEq

/-- Embedding of `<RawTablesIter as Iterator>::next`. -/
def rawTablesNext (m : Mem) (it : RawTablesIter) : Option (Nat × RawTablesIter) :=
  if it.remaining = 0 then none
  else if it.is_64_bit then
    some (read64 m it.location, ⟨it.location + 8, it.remaining - 1, true⟩)
  else
    some (read32 m it.location, ⟨it.location + 4, it.remaining - 1, false⟩)

/-- Embedding of `RSDT::raw_tables`: pointers start after the 36-byte header,
and the count is the wrapping `usize` difference divided by 4. -/
def RSDT.raw_tables (m : Mem) (base : Nat) : RawTablesIter :=
  ⟨base + SDT_HEADER_SIZE, usize_sub (SDTHeader.length m base) SDT_HEADER_SIZE / 4, false⟩

/-- Embedding of `XSDT::raw_tables`: as `RSDT::raw_tables` with 8-byte pointers. -/
def XSDT.raw_tables (m : Mem) (base : Nat) : RawTablesIter :=
  ⟨base + SDT_HEADER_SIZE, usize_sub (SDTHeader.length m base) SDT_HEADER_SIZE / 8, true⟩

/-- Embedding of `ACPI::raw_tables`: dispatch on the handle's variant. -/
def ACPI.raw_tables (m : Mem) : ACPI → RawTablesIter
  | ACPI.Version1 rsdt => RSDT.raw_tables m rsdt
  | ACPI.Version2 xsdt => XSDT.raw_tables m xsdt

/-- Drive a `RawTablesIter` with explicit fuel, collecting the yielded
addresses in order. -/
def rawTablesRun (m : Mem) : Nat → RawTablesIter → List Nat
  | 0, _ => []
  | fuel + 1, it =>
    match rawTablesNext m it with
    | none => []
    | some (v, it2) => v :: rawTablesRun m fuel it2

/-- The whole sequence a root-table handle enumerates: its iterator driven
with enough fuel (`remaining`) to exhaust it. -/
def ACPI.raw_tables_list (m : Mem) (a : ACPI) : List Nat :=
  rawTablesRun m (ACPI.raw_tables m a).remaining (ACPI.raw_tables m a)

/-- Embedding of `ACPI::find_raw_table`: the first enumerated sub-table
address whose header's 4-byte `signature` equals the asked signature. -/
def ACPI.find_raw_table (m : Mem) (a : ACPI) (sig : List Nat) : Option Nat :=
  (ACPI.raw_tables_list m a).find? (fun p => SDTHeader.signature m p == sig)

/-- Byte size of the packed `MADT` struct: 36-byte header, `controller_address`
(`u32`), `flags` (`u32`). -/
def MADT_SIZE : Nat := 44

/-- The decoded entry variants, enum `MADTEntry` of `madt.rs`. -/
inductive MADTEntry where
  | Processor (acpi_id apic_id flags : Nat)
  | IOAPIC (apic_id address interrupt_base : Nat)
  | InterruptSourceOverride (bus_source irq_source interrupt flags : Nat)
  | Unknown
deriving DecidableEq

/-- The type-tag dispatch, `impl From<u8> for MADTEntryType`. -/
inductive MADTEntryType where
  | Processor
  | IOAPIC
  | InterruptSourceOverride
  | Unknown

/-- Embedding of `MADTEntryType::from`: 0, 1, 2 are recognized, everything
else is `Unknown`. -/
def MADTEntryType.ofNat : Nat → MADTEntryType
  | 0 => MADTEntryType.Processor
  | 1 => MADTEntryType.IOAPIC
  | 2 => MADTEntryType.InterruptSourceOverride
  | _ => MADTEntryType.Unknown

/-- The iterator state of `MADTEntryIterator`: the cursor `location` and the
field named `end` in the source (here `tableEnd`). -/
structure MADTEntryIterator where
  location : Nat
  tableEnd : Nat
deriving DecidableEq

/-- Embedding of `<MADTEntryIterator as Iterator>::next`.  The stop test is
exact equality of cursor and end, as in the source.  Each recognized tag
reinterprets the bytes at the cursor as its full packed record
(`MADTProcessorEntry` offsets 2, 3, 4; `MADTIOAPICEntry` offsets 2, 4, 8;
`MADTInterruptSourceEntry` offsets 2, 3, 4, 8); in every branch the cursor
then advances by the entry header's declared `length` byte at offset 1. -/
def madtNext (m : Mem) (s : MADTEntryIterator) : Option (MADTEntry × MADTEntryIterator) :=
  if s.location = s.tableEnd then none
  else
    some
      (match MADTEntryType.ofNat (read1 m s.location) with
        | MADTEntryType.Processor =>
            MADTEntry.Processor (read1 m (s.location + 2)) (read1 m (s.location + 3))
              (read32 m (s.location + 4))
        | MADTEntryType.IOAPIC =>
            MADTEntry.IOAPIC (read1 m (s.location + 2)) (read32 m (s.location + 4))
              (read32 m (s.location + 8))
        | MADTEntryType.InterruptSourceOverride =>
            MADTEntry.InterruptSourceOverride (read1 m (s.location + 2))
              (read1 m (s.location + 3)) (read32 m (s.location + 4)) (read16 m (s.location + 8))
        | MADTEntryType.Unknown => MADTEntry.Unknown,
        ⟨s.location + read1 m (s.location + 1), s.tableEnd⟩)

/-- Embedding of `MADT::entries`: entries start after the 44-byte `MADT`
struct and end at `table_start + header.length`. -/
def MADT.entries (m : Mem) (base : Nat) : MADTEntryIterator :=
  ⟨base + MADT_SIZE, base + SDTHeader.length m base⟩

/-- Drive a `MADTEntryIterator` with explicit fuel; returns the decoded
entries in order together with the final iterator state. -/
def madtRun (m : Mem) : Nat → MADTEntryIterator → List MADTEntry × MADTEntryIterator
  | 0, s => ([], s)
  | fuel + 1, s =>
    match madtNext m s with
    | none => ([], s)
    | some (x, s2) =>
      let r := madtRun m fuel s2
      (x :: r.1, r.2)

/-- An MADT entry region `[a, e)` tiled exactly by `n` entries, each declaring
a length of at least 2 (the entry's `length` byte sits at offset 1). -/
inductive MADTTiling (m : Mem) (e : Nat) : Nat → Nat → Prop where
  | done : MADTTiling m e e 0
  | step (a n : Nat) (hlen : 2 ≤ read1 m (a + 1)) (hfit : a + read1 m (a + 1) ≤ e)
      (rest : MADTTiling m e (a + read1 m (a + 1)) n) : MADTTiling m e a (n + 1)

/-- Memory for the three-entry MADT example: table at 0, `header.length = 69`,
a type-0 entry of declared length 8 at 44, a type-99 entry of declared
length 5 at 52, and a type-1 entry of declared length 12 at 57. -/
def memC1 : Mem := fun a =>
  if a = 4 then 69
  else if a = 44 then 0
  else if a = 45 then 8
  else if a = 46 then 7
  else if a = 47 then 9
  else if a = 48 then 1
  else if a = 52 then 99
  else if a = 53 then 5
  else if a = 57 then 1
  else if a = 58 then 12
  else if a = 59 then 3
  else if a = 61 then 192
  else 0

/-- Memory for the overshooting-entry MADT: table at 0, `header.length = 46`
(2 bytes of entry region), holding one entry header of type 0 that declares
length 8, so the advanced cursor lands at 52, strictly past the end 46. -/
def memC2 : Mem := fun a =>
  if a = 4 then 46
  else if a = 44 then 0
  else if a = 45 then 8
  else if a = 46 then 1
  else if a = 47 then 1
  else 0

/-- Memory for the termination witness: table at 0, `header.length = 46`,
one entry of declared length 2 tiling the entry region `[44, 46)` exactly. -/
def memC3 : Mem := fun a =>
  if a = 4 then 46
  else if a = 45 then 2
  else 0

/-- Memory holding an RSDP at 0 whose `revision` byte (offset 15) is 3. -/
def memC4 : Mem := fun a => if a = 15 then 3 else 0

/-- Memory holding a root table at 0 whose header `length` field is 35, one
less than the 36-byte header size. -/
def memC5 : Mem := fun a => if a = 4 then 35 else 0

/-- Memory for the three-pointer RSDT example: table at 0,
`header.length = 36 + 3 * 4 = 48`, storing the 32-bit pointers 4096, 8192,
12288 at offsets 36, 40, 44. -/
def memC8 : Mem := fun a =>
  if a = 4 then 48
  else if a = 37 then 16
  else if a = 41 then 32
  else if a = 45 then 48
  else 0

/-- Memory for the signature-lookup example: an RSDT at 0 with one stored
pointer to address 100, where the 4 bytes spell `APIC`. -/
def memC9 : Mem := fun a =>
  if a = 4 then 40
  else if a = 36 then 100
  else if a = 100 then 65
  else if a = 101 then 80
  else if a = 102 then 73
  else if a = 103 then 67
  else 0

/-- Memory for the short-declared-length example: table at 0,
`header.length = 47`, one type-0 entry at 44 declaring length 3 while its
fixed processor shape extends to offset 8; the flags bytes at 48 hold 7. -/
def memC10 : Mem := fun a =>
  if a = 4 then 47
  else if a = 44 then 0
  else if a = 45 then 3
  else if a = 46 then 5
  else if a = 47 then 6
  else if a = 48 then 7
  else 0

/-! ## Helper lemmas -/

theorem read1_lt (m : Mem) (a : Nat) : read1 m a < 256 := Nat.mod_lt _ (by omega)

theorem read32_lt (m : Mem) (a : Nat) : read32 m a < 4294967296 := by
  have h0 := read1_lt m a
  have h1 := read1_lt m (a + 1)
  have h2 := read1_lt m (a + 2)
  have h3 := read1_lt m (a + 3)
  unfold read32
  omega

theorem checksum_foldl (m : Mem) (base : Nat) (L : Nat) :
    (List.range L).foldl (fun sum o => (sum + read1 m (base + o)) % 256) 0 =
      (∑ o ∈ Finset.range L, read1 m (base + o)) % 256 := by
  induction L with
  | zero => simp
  | succ n ih =>
    rw [List.range_succ, List.foldl_append, ih, Finset.sum_range_succ]
    simp only [List.foldl_cons, List.foldl_nil]
    omega

theorem madtNext_advances (m : Mem) (s : MADTEntryIterator) (h : s.location ≠ s.tableEnd) :
    ∃ x, madtNext m s = some (x, ⟨s.location + read1 m (s.location + 1), s.tableEnd⟩) := by
  rw [madtNext, if_neg h]
  exact ⟨_, rfl⟩

theorem madtNext_stop (m : Mem) (e : Nat) : madtNext m ⟨e, e⟩ = none := by
  simp [madtNext]

theorem madtRun_tiling (m : Mem) {e a n : Nat} (ht : MADTTiling m e a n) :
    ∀ fuel, e - a ≤ fuel →
      (madtRun m fuel ⟨a, e⟩).2 = ⟨e, e⟩ ∧
        (madtRun m fuel ⟨a, e⟩).1.length = n ∧ 2 * n ≤ e - a := by
  induction ht with
  | done =>
    intro fuel h
    cases fuel <;> simp [madtRun, madtNext]
  | step a n hlen hfit rest ih =>
    intro fuel h
    have ha : a ≠ e := by omega
    obtain ⟨f, rfl⟩ : ∃ f, fuel = f + 1 := ⟨fuel - 1, by omega⟩
    obtain ⟨x, hx⟩ := madtNext_advances m ⟨a, e⟩ ha
    have ihf := ih f (by omega)
    simp only [madtRun, hx]
    refine ⟨ihf.1, by simp [ihf.2.1], ?_⟩
    have h22 := ihf.2.2
    omega

theorem find?_first (p : Nat → Bool) (l : List Nat) (a : Nat) :
    l.find? p = some a ↔
      p a = true ∧ ∃ l1 l2, l = l1 ++ a :: l2 ∧ ∀ b ∈ l1, p b = false := by
  rw [List.find?_eq_some]
  constructor
  · rintro ⟨hpa, l1, l2, rfl, hall⟩
    exact ⟨hpa, l1, l2, rfl, fun b hb => by simpa using hall b hb⟩
  · rintro ⟨hpa, l1, l2, rfl, hall⟩
    exact ⟨hpa, l1, l2, rfl, fun b hb => by simpa using hall b hb⟩

theorem pairwise_step_by_16 (s e : Nat) :
    List.Pairwise (fun x y => x < y) (step_by_16 s e) := by
  unfold step_by_16
  refine List.pairwise_map.mpr ?_
  exact List.Pairwise.imp (fun h => by omega) (List.pairwise_lt_range _)

theorem mem_step_by_16 {s e a : Nat} :
    a ∈ step_by_16 s e ↔ ∃ k, k < (e - s + 15) / 16 ∧ a = s + 16 * k := by
  unfold step_by_16
  simp only [List.mem_map, List.mem_range]
  constructor
  · rintro ⟨k, hk, rfl⟩
    exact ⟨k, hk, rfl⟩
  · rintro ⟨k, hk, rfl⟩
    exact ⟨k, hk, rfl⟩

theorem mem_legacy_addrs {a : Nat} :
    a ∈ legacy_addrs ↔
      RSDP_LOCATION_START ≤ a ∧ a < RSDP_LOCATION_END ∧ 16 ∣ (a - RSDP_LOCATION_START) := by
  rw [legacy_addrs, mem_step_by_16]
  unfold RSDP_LOCATION_START RSDP_LOCATION_END
  constructor
  · rintro ⟨k, hk, rfl⟩
    exact ⟨by omega, by omega, ⟨k, by omega⟩⟩
  · rintro ⟨h1, h2, h3⟩
    obtain ⟨k, hk⟩ := h3
    exact ⟨k, by omega, by omega⟩

theorem mem_ebda_addrs (m : Mem) {a : Nat} :
    a ∈ ebda_addrs m ↔
      extended_bios_data_area_start m ≤ a ∧
        a < extended_bios_data_area_start m + EXTENDED_BIOS_AREA_MAX_SIZE ∧
        16 ∣ (a - extended_bios_data_area_start m) := by
  rw [ebda_addrs, mem_step_by_16]
  unfold EXTENDED_BIOS_AREA_MAX_SIZE
  generalize extended_bios_data_area_start m = eb
  constructor
  · rintro ⟨k, hk, rfl⟩
    exact ⟨by omega, by omega, ⟨k, by omega⟩⟩
  · rintro ⟨h1, h2, h3⟩
    obtain ⟨k, hk⟩ := h3
    exact ⟨k, by omega, by omega⟩

theorem rawTablesRun_32 (m : Mem) (n : Nat) :
    ∀ loc fuel, n ≤ fuel →
      rawTablesRun m fuel ⟨loc, n, false⟩ =
        (List.range n).map (fun i => read32 m (loc + 4 * i)) := by
  induction n with
  | zero =>
    intro loc fuel h
    cases fuel <;> simp [rawTablesRun, rawTablesNext]
  | succ k ih =>
    intro loc fuel h
    obtain ⟨f, rfl⟩ : ∃ f, fuel = f + 1 := ⟨fuel - 1, by omega⟩
    have hred : rawTablesRun m (f + 1) ⟨loc, k + 1, false⟩ =
        read32 m loc :: rawTablesRun m f ⟨loc + 4, k, false⟩ := rfl
    rw [hred, ih (loc + 4) f (by omega), List.range_succ_eq_map, List.map_cons, List.map_map]
    refine List.cons_eq_cons.mpr ⟨by norm_num, ?_⟩
    refine List.map_congr_left ?_
    intro i _
    show read32 m (loc + 4 + 4 * i) = read32 m (loc + 4 * (i + 1))
    congr 1
    omega

theorem rawTablesRun_64 (m : Mem) (n : Nat) :
    ∀ loc fuel, n ≤ fuel →
      rawTablesRun m fuel ⟨loc, n, true⟩ =
        (List.range n).map (fun i => read64 m (loc + 8 * i)) := by
  induction n with
  | zero =>
    intro loc fuel h
    cases fuel <;> simp [rawTablesRun, rawTablesNext]
  | succ k ih =>
    intro loc fuel h
    obtain ⟨f, rfl⟩ : ∃ f, fuel = f + 1 := ⟨fuel - 1, by omega⟩
    have hred : rawTablesRun m (f + 1) ⟨loc, k + 1, true⟩ =
        read64 m loc :: rawTablesRun m f ⟨loc + 8, k, true⟩ := rfl
    rw [hred, ih (loc + 8) f (by omega), List.range_succ_eq_map, List.map_cons, List.map_map]
    refine List.cons_eq_cons.mpr ⟨by norm_num, ?_⟩
    refine List.map_congr_left ?_
    intro i _
    show read64 m (loc + 8 + 8 * i) = read64 m (loc + 8 * (i + 1))
    congr 1
    omega

/-! ## Claim theorems -/

/-- C1: in every decoding branch — recognized tags 0, 1, 2 and any
unrecognized tag — the iterator advances the cursor by exactly the entry's
own declared 1-byte length field; decoding the stream of a type-0 entry of
declared length 8, a type-99 entry of declared length 5 and a type-1 entry
of declared length 12, tiling the table exactly, yields
[Processor, Unknown, IOAPIC] in order. -/
theorem madt_advances_by_declared_length :
    (∀ (m : Mem) (s : MADTEntryIterator), s.location ≠ s.tableEnd →
      ∃ x, madtNext m s = some (x, ⟨s.location + read1 m (s.location + 1), s.tableEnd⟩))
    ∧ SDTHeader.length memC1 0 = 69
    ∧ (madtRun memC1 3 (MADT.entries memC1 0)).1 =
        [MADTEntry.Processor 7 9 1, MADTEntry.Unknown, MADTEntry.IOAPIC 3 192 0]
    ∧ (madtRun memC1 3 (MADT.entries memC1 0)).2 = ⟨69, 69⟩ :=
  ⟨madtNext_advances, by decide, by decide, by decide⟩

/-- C2 (failing behavior): in the table of `memC2` the single entry declares
length 8 while only 2 bytes remain before the declared end 46, so the cursor
jumps to 52, strictly past the end; iteration does not stop there — the next
call still decodes an entry from bytes at and past the table's end. -/
theorem madt_overrun_keeps_reading :
    (MADT.entries memC2 0).tableEnd = 46
    ∧ madtNext memC2 (MADT.entries memC2 0) = some (MADTEntry.Processor 1 1 0, ⟨52, 46⟩)
    ∧ madtNext memC2 ⟨52, 46⟩ ≠ none :=
  ⟨by decide, by decide, by decide⟩

/-- C3: if the entry region of the MADT at `base` is tiled by `n` entries each
declaring a length of at least 2, then driving the iterator with fuel equal
to the table's own declared length terminates with the cursor exactly at
`base + header.length` (the terminal state, whose next call yields none),
producing exactly the `n` entries, with `n` bounded by the declared length. -/
theorem madt_walk_terminates (m : Mem) (base n : Nat)
    (ht : MADTTiling m (base + SDTHeader.length m base) (base + MADT_SIZE) n) :
    (madtRun m (SDTHeader.length m base) (MADT.entries m base)).2 =
        ⟨base + SDTHeader.length m base, base + SDTHeader.length m base⟩
    ∧ (madtRun m (SDTHeader.length m base) (MADT.entries m base)).1.length = n
    ∧ 2 * n ≤ SDTHeader.length m base
    ∧ madtNext m ⟨base + SDTHeader.length m base, base + SDTHeader.length m base⟩ = none := by
  have h := madtRun_tiling m ht (SDTHeader.length m base) (by omega)
  refine ⟨h.1, h.2.1, ?_, madtNext_stop m _⟩
  have h22 := h.2.2
  omega

/-- C3 witness: the table of `memC3` has declared length 46 and its 2-byte
entry region is tiled by one entry declaring length 2. -/
theorem madt_walk_terminates_witness :
    (madtRun memC3 (SDTHeader.length memC3 0) (MADT.entries memC3 0)).2 =
        ⟨0 + SDTHeader.length memC3 0, 0 + SDTHeader.length memC3 0⟩
    ∧ (madtRun memC3 (SDTHeader.length memC3 0) (MADT.entries memC3 0)).1.length = 1
    ∧ 2 * 1 ≤ SDTHeader.length memC3 0
    ∧ madtNext memC3 ⟨0 + SDTHeader.length memC3 0, 0 + SDTHeader.length memC3 0⟩ = none := by
  have ht : MADTTiling memC3 (0 + SDTHeader.length memC3 0) (0 + MADT_SIZE) 1 := by
    have h46 : (0 : Nat) + SDTHeader.length memC3 0 = 46 := by decide
    have h44 : (0 : Nat) + MADT_SIZE = 44 := by decide
    rw [h46, h44]
    have hstep : (44 : Nat) + read1 memC3 (44 + 1) = 46 := by decide
    refine MADTTiling.step 44 0 (by decide) (by decide) ?_
    rw [hstep]
    exact MADTTiling.done
  exact madt_walk_terminates memC3 0 1 ht

/-- C4 (amended): resolving a located root pointer branches on its revision
byte — 0 yields the 32-bit handle at the pointer's 32-bit address field,
exactly 2 yields the 64-bit handle through the extended pointer's 64-bit
address field, and any other revision value yields nothing. -/
theorem resolve_rsdp_revision_cases (m : Mem) (p : Nat) :
    (RSDP.revision m p = RSDP_VERSION_1 →
      resolve_rsdp m p = some (ACPI.Version1 (RSDP.address m p)))
    ∧ (RSDP.revision m p = RSDP_VERSION_2 →
      resolve_rsdp m p = some (ACPI.Version2 (XSDP.address m p)))
    ∧ (RSDP.revision m p ≠ RSDP_VERSION_1 → RSDP.revision m p ≠ RSDP_VERSION_2 →
      resolve_rsdp m p = none) := by
  refine ⟨fun h => ?_, fun h => ?_, fun h1 h2 => ?_⟩
  · simp [resolve_rsdp, h]
  · simp [resolve_rsdp, h, RSDP_VERSION_1, RSDP_VERSION_2]
  · simp [resolve_rsdp, h1, h2]

/-- C4 counterexample: an RSDP whose revision byte is 3 — a value of 2 or
greater — resolves to nothing rather than to a 64-bit handle. -/
theorem resolve_rsdp_revision_three :
    RSDP.revision memC4 0 = 3 ∧ 2 ≤ RSDP.revision memC4 0 ∧ resolve_rsdp memC4 0 = none :=
  ⟨by decide, by decide, by decide⟩

/-- C5 (failing behavior): a root table whose header length field is 35 — one
less than the 36-byte header size — makes the wrapping `usize` subtraction
underflow: the pointer count becomes huge instead of 0, for both the 4-byte
and the 8-byte form, and enumeration yields a pointer instead of stopping. -/
theorem root_table_length_underflow :
    SDTHeader.length memC5 0 = 35
    ∧ (RSDT.raw_tables memC5 0).remaining = 4611686018427387903
    ∧ (XSDT.raw_tables memC5 0).remaining = 2305843009213693951
    ∧ rawTablesNext memC5 (RSDT.raw_tables memC5 0) ≠ none :=
  ⟨by decide, by decide, by decide, by decide⟩

/-- C6: checksum validation sums the header's declared number of bytes
starting at the header's base with unsigned 8-bit wraparound arithmetic and
returns true exactly when that sum is 0 modulo 256; it is a total boolean
function of the referenced bytes. -/
theorem verify_checksum_iff_sum_mod (m : Mem) (base : Nat) :
    verify_checksum m base = true ↔
      (∑ o ∈ Finset.range (SDTHeader.length m base), read1 m (base + o)) % 256 = 0 := by
  rw [verify_checksum, checksum_foldl]
  simp

/-- C7: the root-pointer search scans the legacy window before the EBDA
window, each window in increasing 16-byte-aligned steps, and returns exactly
the first scanned address whose 8 bytes match the signature; a legacy match
wins over any EBDA match, and with no match anywhere it returns nothing. -/
theorem find_rsdp_scan_order (m : Mem) (a : Nat) :
    (find_rsdp m = some a ↔
      rsdp_sig_at m a = true ∧
        ∃ l1 l2, scan_addrs m = l1 ++ a :: l2 ∧ ∀ b ∈ l1, rsdp_sig_at m b = false)
    ∧ (find_rsdp m = none ↔ ∀ b ∈ scan_addrs m, rsdp_sig_at m b = false)
    ∧ ((∃ b ∈ legacy_addrs, rsdp_sig_at m b = true) →
        find_rsdp m = legacy_addrs.find? (rsdp_sig_at m) ∧
          ∃ c ∈ legacy_addrs, find_rsdp m = some c)
    ∧ scan_addrs m = legacy_addrs ++ ebda_addrs m
    ∧ (a ∈ legacy_addrs ↔
        RSDP_LOCATION_START ≤ a ∧ a < RSDP_LOCATION_END ∧ 16 ∣ (a - RSDP_LOCATION_START))
    ∧ (a ∈ ebda_addrs m ↔
        extended_bios_data_area_start m ≤ a ∧
          a < extended_bios_data_area_start m + EXTENDED_BIOS_AREA_MAX_SIZE ∧
          16 ∣ (a - extended_bios_data_area_start m))
    ∧ List.Pairwise (fun x y => x < y) legacy_addrs
    ∧ List.Pairwise (fun x y => x < y) (ebda_addrs m) := by
  refine ⟨find?_first (rsdp_sig_at m) (scan_addrs m) a, ?_, ?_, rfl, mem_legacy_addrs,
    mem_ebda_addrs m, pairwise_step_by_16 _ _, pairwise_step_by_16 _ _⟩
  · rw [find_rsdp, List.find?_eq_none]
    simp
  · rintro ⟨b, hb, hpb⟩
    cases hfl : legacy_addrs.find? (rsdp_sig_at m) with
    | none => exact absurd hpb (List.find?_eq_none.mp hfl b hb)
    | some c =>
      have hsome : find_rsdp m = some c := by
        rw [find_rsdp, scan_addrs, List.find?_append, hfl]
        rfl
      exact ⟨hsome, c, List.mem_of_find?_eq_some hfl, hsome⟩

/-- C8: a root table whose declared length is the 36-byte header plus `n`
pointer slots enumerates exactly the `n` stored little-endian pointers in
stored order — 4-byte slots for the 32-bit form, 8-byte slots for the 64-bit
form — with pointer count `(length - 36) / width`; concretely three stored
32-bit pointers come out in stored order. -/
theorem root_table_enumeration (m : Mem) (base n : Nat) :
    (SDTHeader.length m base = 36 + 4 * n →
      (RSDT.raw_tables m base).remaining = n ∧
        ACPI.raw_tables_list m (ACPI.Version1 base) =
          (List.range n).map (fun i => read32 m (base + 36 + 4 * i)))
    ∧ (SDTHeader.length m base = 36 + 8 * n →
      (XSDT.raw_tables m base).remaining = n ∧
        ACPI.raw_tables_list m (ACPI.Version2 base) =
          (List.range n).map (fun i => read64 m (base + 36 + 8 * i)))
    ∧ SDTHeader.length memC8 0 = 36 + 3 * 4
    ∧ ACPI.raw_tables_list memC8 (ACPI.Version1 0) = [4096, 8192, 12288] := by
  have hb : SDTHeader.length m base < 4294967296 := read32_lt m (base + 4)
  refine ⟨fun h => ?_, fun h => ?_, by decide, by decide⟩
  · have hrem : usize_sub (SDTHeader.length m base) 36 / 4 = n := by
      rw [h]
      unfold usize_sub USIZE_MOD
      omega
    refine ⟨hrem, ?_⟩
    calc ACPI.raw_tables_list m (ACPI.Version1 base)
        = rawTablesRun m (usize_sub (SDTHeader.length m base) 36 / 4)
            ⟨base + 36, usize_sub (SDTHeader.length m base) 36 / 4, false⟩ := rfl
      _ = rawTablesRun m n ⟨base + 36, n, false⟩ := by rw [hrem]
      _ = (List.range n).map (fun i => read32 m (base + 36 + 4 * i)) :=
          rawTablesRun_32 m n (base + 36) n le_rfl
  · have hrem : usize_sub (SDTHeader.length m base) 36 / 8 = n := by
      rw [h]
      unfold usize_sub USIZE_MOD
      omega
    refine ⟨hrem, ?_⟩
    calc ACPI.raw_tables_list m (ACPI.Version2 base)
        = rawTablesRun m (usize_sub (SDTHeader.length m base) 36 / 8)
            ⟨base + 36, usize_sub (SDTHeader.length m base) 36 / 8, true⟩ := rfl
      _ = rawTablesRun m n ⟨base + 36, n, true⟩ := by rw [hrem]
      _ = (List.range n).map (fun i => read64 m (base + 36 + 8 * i)) :=
          rawTablesRun_64 m n (base + 36) n le_rfl

/-- C9: signature lookup returns the first enumerated sub-table address whose
header's 4-byte signature field equals the asked signature, in enumeration
order, and returns nothing — not an error — when no enumerated sub-table
matches; concretely the `APIC` signature is found and an absent one is not. -/
theorem find_raw_table_first_match (m : Mem) (acpi : ACPI) (sig : List Nat) :
    (∀ p, ACPI.find_raw_table m acpi sig = some p ↔
      SDTHeader.signature m p = sig ∧
        ∃ l1 l2, ACPI.raw_tables_list m acpi = l1 ++ p :: l2 ∧
          ∀ q ∈ l1, SDTHeader.signature m q ≠ sig)
    ∧ (ACPI.find_raw_table m acpi sig = none ↔
        ∀ p ∈ ACPI.raw_tables_list m acpi, SDTHeader.signature m p ≠ sig)
    ∧ ACPI.find_raw_table memC9 (ACPI.Version1 0) [65, 80, 73, 67] = some 100
    ∧ ACPI.find_raw_table memC9 (ACPI.Version1 0) [72, 80, 69, 84] = none := by
  refine ⟨fun p => ?_, ?_, by decide, by decide⟩
  · rw [ACPI.find_raw_table, List.find?_eq_some]
    simp [beq_iff_eq]
  · rw [ACPI.find_raw_table, List.find?_eq_none]
    simp [beq_iff_eq]

/-- C10: for type tags 0, 1 and 2 the decoder reinterprets the bytes at the
cursor as the full fixed record shape of that type and copies all its fields
out, while the declared length only moves the cursor; concretely an entry
declaring length 3 still emits flags copied from bytes at offsets 4..7,
beyond its declared length. -/
theorem madt_decode_fixed_shape :
    (∀ (m : Mem) (s : MADTEntryIterator), s.location ≠ s.tableEnd →
      (read1 m s.location = 0 →
        madtNext m s = some (MADTEntry.Processor (read1 m (s.location + 2))
            (read1 m (s.location + 3)) (read32 m (s.location + 4)),
          ⟨s.location + read1 m (s.location + 1), s.tableEnd⟩))
      ∧ (read1 m s.location = 1 →
        madtNext m s = some (MADTEntry.IOAPIC (read1 m (s.location + 2))
            (read32 m (s.location + 4)) (read32 m (s.location + 8)),
          ⟨s.location + read1 m (s.location + 1), s.tableEnd⟩))
      ∧ (read1 m s.location = 2 →
        madtNext m s = some (MADTEntry.InterruptSourceOverride (read1 m (s.location + 2))
            (read1 m (s.location + 3)) (read32 m (s.location + 4)) (read16 m (s.location + 8)),
          ⟨s.location + read1 m (s.location + 1), s.tableEnd⟩)))
    ∧ read1 memC10 45 = 3
    ∧ read32 memC10 48 = 7
    ∧ (madtRun memC10 2 (MADT.entries memC10 0)).1 = [MADTEntry.Processor 5 6 7]
    ∧ (madtRun memC10 2 (MADT.entries memC10 0)).2 = ⟨47, 47⟩ := by
  refine ⟨fun m s h => ⟨fun ht => ?_, fun ht => ?_, fun ht => ?_⟩,
    by decide, by decide, by decide, by decide⟩
  all_goals rw [madtNext, if_neg h, ht]
  all_goals rfl

end AsyncOS
